import Mathlib

/-!
Verification of the scheduling and dispatch engine of a WhatsApp message
scheduler.  The definitions below are a shallow embedding of the server
source (the current array-input server; the older string-input variant of
`POST /api/schedule` is embedded separately where noted):

* rows of the `scheduled_messages` table → `Entry` (the `created_at` column
  is set by a column default and never read by any modelled operation, so it
  is omitted);
* `calculateTypingDelay` → `calculateTypingDelay`, with the two
  `Math.random()` draws passed explicitly as rationals `r1 r2 ∈ [0,1)`;
* `POST /api/schedule` → `postSchedule`; its `messages.forEach` insert loop is
  `insertLoopF`, where the oracle `insOk` tells whether the `i`-th row `INSERT`
  succeeds (an exception aborts the loop, mirroring `forEach` + `try/catch`);
  `insertLoop` is the same loop when every write succeeds;
* the older string-input `POST /api/schedule` (split on "/", trim, drop
  blanks) → `postScheduleLegacy` with `splitMessages`;
* `GET /api/scheduled` (`SELECT .. WHERE sent = 0 ORDER BY scheduled_time`)
  → `listPending` (stable `mergeSort` models the `ORDER BY`);
* `PUT /api/scheduled/:id` → `putScheduledId`;
* `DELETE /api/scheduled/:id` → `deleteScheduledId`;
* `DELETE /api/scheduled/batch/:batchId` → `deleteScheduledBatch`;
* the cron dispatcher tick → `runTick` built on `tickLoop`: the due query
  (`SELECT .. WHERE sent = 0 AND scheduled_time <= now`, no `ORDER BY`, so
  rows arrive in table order) is `dueList`, a successful send is followed by
  `markSent` (`UPDATE .. SET sent = 1 WHERE id = ?`), a failing send is
  caught and skipped; `sendOk` tells whether `client.sendMessage` succeeds;
* because the cron callback is `async` and awaits each send, a second tick
  can start while the first is suspended at an `await`; `stepTick`/`runSched`
  give the small-step interleaving semantics of two concurrent ticks, with
  yield points exactly at the `await`s (between the transport invocation and
  the `markSent` write).

Timestamps are modelled as integers (milliseconds since epoch); SQLite's
`datetime` comparison of ISO strings is order-isomorphic to this.
-/

namespace WhatSchedule

/-- A row of the `scheduled_messages` table. -/
structure Entry where
  id : Nat
  phone_number : String
  message : String
  scheduled_time : Int
  sent : Bool
  batch_id : String
deriving DecidableEq, Repr

/-- The HTTP responses the modelled handlers can produce. -/
inductive Resp where
  | ok (count : Nat) (ids : List Nat)
  | success
  | badRequest (err : String)
  | notFound
  | serverError
deriving DecidableEq, Repr

/-- `calculateTypingDelay(messageLength)` from the source, with the two
`Math.random()` calls made explicit: `r1` is the draw entering the
typing-rate jitter, `r2` the draw entering the thinking time.  Floats are
modelled by rationals. -/
def calculateTypingDelay (r1 r2 : ℚ) (messageLength : Nat) : Int :=
  let baseCharsPerSecond : ℚ := 3
  let variance : ℚ := 1/2
  let charsPerSecond : ℚ := baseCharsPerSecond + (r1 * variance * 2 - variance)
  let baseDelay : ℚ := ((messageLength : ℚ) / charsPerSecond) * 1000
  let thinkingTime : ℚ := 1000 + r2 * 2000
  ⌊baseDelay + thinkingTime⌋

/-- The delay function the schedule handler feeds to its insert loop:
the `index`-th call of `calculateTypingDelay(msg.length)`, with that call's
two random draws `r1 index` and `r2 index`. -/
def typingDelays (r1 r2 : Nat → ℚ) : Nat → String → Int :=
  fun index m => calculateTypingDelay (r1 index) (r2 index) m.length

/-- One row built by the `INSERT INTO scheduled_messages ...` statement:
`scheduled_time` is `new Date(scheduledDate.getTime() + cumulativeDelay)`,
`sent` defaults to `0`, `id` is the autoincrement rowid. -/
def mkRow (pn bid : String) (nid : Nat) (m : String) (target cum : Int) : Entry :=
  { id := nid, phone_number := pn, message := m,
    scheduled_time := target + cum, sent := false, batch_id := bid }

/-- The `messages.forEach` insert loop of `POST /api/schedule` when every
row write succeeds: `idx` is the loop index, `nid` the next rowid, `cum` the
`cumulativeDelay` accumulator; the delay is added only when the current
message is not the last (`index < messages.length - 1`). -/
def insertLoop (pn bid : String) (target : Int) (d : Nat → String → Int) :
    List String → Nat → Nat → Int → List Entry
  | [], _, _, _ => []
  | m :: rest, idx, nid, cum =>
    mkRow pn bid nid m target cum ::
      insertLoop pn bid target d rest (idx + 1) (nid + 1)
        (cum + if rest = [] then 0 else d idx m)

/-- The same insert loop with fallible row writes: `insOk idx` tells whether
the `idx`-th `stmt.run` succeeds.  A failing write throws, which aborts the
`forEach`; the rows already inserted stay in the store (there is no enclosing
transaction).  Returns the rows actually written and whether all writes
succeeded. -/
def insertLoopF (insOk : Nat → Bool) (pn bid : String) (target : Int)
    (d : Nat → String → Int) :
    List String → Nat → Nat → Int → List Entry × Bool
  | [], _, _, _ => ([], true)
  | m :: rest, idx, nid, cum =>
    if insOk idx then
      let r := insertLoopF insOk pn bid target d rest (idx + 1) (nid + 1)
        (cum + if rest = [] then 0 else d idx m)
      (mkRow pn bid nid m target cum :: r.1, r.2)
    else ([], false)

/-- `POST /api/schedule` of the current (array-input) server: validation
(falsy `phoneNumber`, missing or empty `messages`, `scheduledTime` not in
the future), then the insert loop; on a write failure the `catch` answers
500 but the rows written before the failure remain in the store. -/
def postSchedule (s : List Entry) (phoneNumber : String) (messages : List String)
    (scheduledTime now : Int) (batchId : String) (nextId : Nat)
    (r1 r2 : Nat → ℚ) (insOk : Nat → Bool) : List Entry × Resp :=
  if phoneNumber = "" ∨ messages = [] then
    (s, .badRequest "Missing required fields")
  else if scheduledTime ≤ now then
    (s, .badRequest "Scheduled time must be in the future")
  else
    let r := insertLoopF insOk phoneNumber batchId scheduledTime
      (typingDelays r1 r2) messages 0 nextId 0
    (s ++ r.1, if r.2 then .ok messages.length (r.1.map Entry.id) else .serverError)

/-- The older server's `message.split('/').map(m => m.trim()).filter(m =>
m.length > 0)`. -/
def splitMessages (message : String) : List String :=
  ((message.splitOn "/").map String.trim).filter fun m => m.length != 0

/-- `POST /api/schedule` of the older (string-input) server: the message
string is split on "/", trimmed and blank-filtered, and a batch that is
empty after that filtering is rejected before any write. -/
def postScheduleLegacy (s : List Entry) (phoneNumber message : String)
    (scheduledTime now : Int) (batchId : String) (nextId : Nat)
    (r1 r2 : Nat → ℚ) : List Entry × Resp :=
  if phoneNumber = "" ∨ message = "" then
    (s, .badRequest "Missing required fields")
  else if scheduledTime ≤ now then
    (s, .badRequest "Scheduled time must be in the future")
  else
    let msgs := splitMessages message
    if msgs = [] then (s, .badRequest "No valid messages found")
    else
      let rows := insertLoop phoneNumber batchId scheduledTime
        (typingDelays r1 r2) msgs 0 nextId 0
      (s ++ rows, .ok msgs.length (rows.map Entry.id))

/-- Modelled from the spec's words, for comparison with the array-input
handler (which has no such step): "messages non-empty after
trimming/filtering blank entries" — an entry is blank when it consists of
whitespace only, i.e. trimming leaves nothing of it. -/
def specTrimFilter (msgs : List String) : List String :=
  msgs.filter fun m => !m.data.all Char.isWhitespace

/-- `GET /api/scheduled`: `SELECT * FROM scheduled_messages WHERE sent = 0
ORDER BY scheduled_time ASC`. -/
def listPending (s : List Entry) : List Entry :=
  (s.filter fun e => !e.sent).mergeSort fun a b =>
    decide (a.scheduled_time ≤ b.scheduled_time)

/-- `PUT /api/scheduled/:id`: `UPDATE scheduled_messages SET scheduled_time
= ? WHERE id = ? AND sent = 0`; answers 404 when no row changed. -/
def putScheduledId (s : List Entry) (id : Nat) (scheduledTime : Int) :
    List Entry × Resp :=
  let changes := s.countP fun e => e.id == id && !e.sent
  let s' := s.map fun e =>
    if e.id == id && !e.sent then { e with scheduled_time := scheduledTime } else e
  if 0 < changes then (s', .success) else (s', .notFound)

/-- `DELETE /api/scheduled/:id`: `DELETE FROM scheduled_messages WHERE id =
? AND sent = 0`; answers 404 when no row changed. -/
def deleteScheduledId (s : List Entry) (id : Nat) : List Entry × Resp :=
  let changes := s.countP fun e => e.id == id && !e.sent
  let s' := s.filter fun e => !(e.id == id && !e.sent)
  if 0 < changes then (s', .success) else (s', .notFound)

/-- `DELETE /api/scheduled/batch/:batchId`: `DELETE FROM scheduled_messages
WHERE batch_id = ? AND sent = 0` (parameterised equality on the batch id);
the current server answers success regardless of the count. -/
def deleteScheduledBatch (s : List Entry) (batchId : String) :
    List Entry × Resp :=
  (s.filter fun e => !(e.batch_id == batchId && !e.sent), .success)

/-- `UPDATE scheduled_messages SET sent = 1 WHERE id = ?`. -/
def setSent (e : Entry) : Entry := { e with sent := true }

/-- Mark the row with rowid `id` as sent. -/
def markSent (id : Nat) (s : List Entry) : List Entry :=
  s.map fun e => if e.id == id then setSent e else e

/-- The dispatcher's due query: `SELECT * FROM scheduled_messages WHERE sent
= 0 AND datetime(scheduled_time) <= datetime(?)` — note there is no `ORDER
BY`, so the rows come back in table (rowid) order. -/
def dueList (now : Int) (s : List Entry) : List Entry :=
  s.filter fun e => !e.sent && decide (e.scheduled_time ≤ now)

/-- The dispatcher's `for (const msg of messagesToSend)` loop over the due
snapshot: each entry is handed to `client.sendMessage`; on success the row
is marked sent, a failing send is caught and the loop continues.  Returns
the final store and the sequence of transport invocations. -/
def tickLoop (sendOk : Entry → Bool) :
    List Entry → List Entry → List Entry × List Entry
  | s, [] => (s, [])
  | s, e :: todo =>
    if sendOk e then
      let r := tickLoop sendOk (markSent e.id s) todo
      (r.1, e :: r.2)
    else
      let r := tickLoop sendOk s todo
      (r.1, e :: r.2)

/-- One dispatcher tick: skip entirely unless the client `isReady`, else
query the due entries and run the send loop. -/
def runTick (isReady : Bool) (sendOk : Entry → Bool) (now : Int)
    (s : List Entry) : List Entry × List Entry :=
  if isReady then tickLoop sendOk s (dueList now s) else (s, [])

/-- Where a tick's `async` callback stands between two `await`s:
either before its due `SELECT`, or about to invoke the transport on the head
of its remaining snapshot, or suspended at the `await` of a successful send
with the `markSent` write still pending, or finished. -/
inductive TickPhase where
  | start
  | sending (todo : List Entry)
  | marking (e : Entry) (todo : List Entry)
  | done
deriving DecidableEq, Repr

/-- The shared state two overlapping ticks act on: the store and the log of
transport invocations. -/
structure Sys where
  store : List Entry
  log : List Entry
deriving DecidableEq, Repr

/-- One atomic step of a tick's callback.  The due `SELECT` is synchronous,
so snapshotting is one step; the transport invocation happens when the
`await client.sendMessage` starts; the `markSent` `UPDATE` is synchronous
once the send resolves. -/
def stepTick (sendOk : Entry → Bool) (now : Int) :
    TickPhase → Sys → TickPhase × Sys
  | .start, sys => (.sending (dueList now sys.store), sys)
  | .sending [], sys => (.done, sys)
  | .sending (e :: todo), sys =>
    if sendOk e then (.marking e todo, { sys with log := sys.log ++ [e] })
    else (.sending todo, { sys with log := sys.log ++ [e] })
  | .marking e todo, sys =>
    (.sending todo, { sys with store := markSent e.id sys.store })
  | .done, sys => (.done, sys)

/-- Interleaved execution of two tick invocations: `sched` picks, step by
step, which of the two callbacks runs next (`true` = first tick). -/
def runSched (sendOk : Entry → Bool) (now : Int) :
    List Bool → TickPhase → TickPhase → Sys → TickPhase × TickPhase × Sys
  | [], p1, p2, sys => (p1, p2, sys)
  | b :: rest, p1, p2, sys =>
    if b then
      let r := stepTick sendOk now p1 sys
      runSched sendOk now rest r.1 p2 r.2
    else
      let r := stepTick sendOk now p2 sys
      runSched sendOk now rest p1 r.1 r.2

/-- The store mutations of the engine, for stating invariants that hold
under any sequence of operations. -/
inductive Op where
  | schedule (pn : String) (msgs : List String) (target now : Int)
      (bid : String) (nid : Nat) (r1 r2 : Nat → ℚ) (insOk : Nat → Bool)
  | reschedule (id : Nat) (t : Int)
  | deleteOne (id : Nat)
  | deleteBatch (bid : String)
  | tick (ready : Bool) (sendOk : Entry → Bool) (now : Int)

/-- The effect of one operation on the store. -/
def applyOp (s : List Entry) : Op → List Entry
  | .schedule pn msgs target now bid nid r1 r2 insOk =>
    (postSchedule s pn msgs target now bid nid r1 r2 insOk).1
  | .reschedule id t => (putScheduledId s id t).1
  | .deleteOne id => (deleteScheduledId s id).1
  | .deleteBatch bid => (deleteScheduledBatch s bid).1
  | .tick ready sendOk now => (runTick ready sendOk now s).1

/-! ### Helper lemmas -/

/-- The fallible insert loop with an always-succeeding write oracle is the
plain insert loop. -/
theorem insertLoopF_all (pn bid : String) (target : Int) (d : Nat → String → Int) :
    ∀ (msgs : List String) (idx nid : Nat) (cum : Int),
      insertLoopF (fun _ => true) pn bid target d msgs idx nid cum
        = (insertLoop pn bid target d msgs idx nid cum, true) := by
  intro msgs
  induction msgs with
  | nil => intro idx nid cum; rfl
  | cons m rest ih =>
    intro idx nid cum
    simp only [insertLoopF, insertLoop, if_true, ih]

/-- The insert loop produces one row per message. -/
theorem insertLoop_length (pn bid : String) (target : Int) (d : Nat → String → Int) :
    ∀ (msgs : List String) (idx nid : Nat) (cum : Int),
      (insertLoop pn bid target d msgs idx nid cum).length = msgs.length := by
  intro msgs
  induction msgs with
  | nil => intro idx nid cum; rfl
  | cons m rest ih =>
    intro idx nid cum
    simp only [insertLoop, List.length_cons, ih]

/-- The first row of a nonempty batch is scheduled at `target + cum`. -/
theorem insertLoop_time_zero (pn bid : String) (target : Int)
    (d : Nat → String → Int) (m : String) (rest : List String)
    (idx nid : Nat) (cum : Int) (h : 0 < (insertLoop pn bid target d (m :: rest) idx nid cum).length) :
    ((insertLoop pn bid target d (m :: rest) idx nid cum).get ⟨0, h⟩).scheduled_time
      = target + cum := rfl

/-- Consecutive rows of a batch differ by the delay computed from the
earlier row's message. -/
theorem insertLoop_time_succ (pn bid : String) (target : Int)
    (d : Nat → String → Int) :
    ∀ (msgs : List String) (idx nid : Nat) (cum : Int) (j : Nat)
      (hj : j + 1 < msgs.length)
      (hj1 : j + 1 < (insertLoop pn bid target d msgs idx nid cum).length)
      (hj0 : j < (insertLoop pn bid target d msgs idx nid cum).length)
      (hjm : j < msgs.length),
      ((insertLoop pn bid target d msgs idx nid cum).get ⟨j + 1, hj1⟩).scheduled_time
        = ((insertLoop pn bid target d msgs idx nid cum).get ⟨j, hj0⟩).scheduled_time
          + d (idx + j) (msgs.get ⟨j, hjm⟩) := by
  intro msgs
  induction msgs with
  | nil => intro idx nid cum j hj; exact absurd hj (by simp)
  | cons m rest ih =>
    intro idx nid cum j hj hj1 hj0 hjm
    match j, rest with
    | 0, [] => exact absurd hj (by simp)
    | 0, m2 :: rest2 =>
      show target + (cum + d idx m) = target + cum + d idx m
      exact (add_assoc target cum (d idx m)).symm
    | j' + 1, rest =>
      have hrest : rest ≠ [] := by
        intro hr; rw [hr] at hj; simp at hj
      have hj' : j' + 1 < rest.length := by
        simpa using hj
      have hA : j' + 1 <
          (insertLoop pn bid target d rest (idx + 1) (nid + 1)
            (cum + if rest = [] then 0 else d idx m)).length := by
        rw [insertLoop_length]; exact hj'
      have hB : j' <
          (insertLoop pn bid target d rest (idx + 1) (nid + 1)
            (cum + if rest = [] then 0 else d idx m)).length := by
        rw [insertLoop_length]; exact Nat.lt_of_succ_lt hj'
      have hC : j' < rest.length := Nat.lt_of_succ_lt hj'
      have := ih (idx + 1) (nid + 1)
        (cum + if rest = [] then 0 else d idx m) j' hj' hA hB hC
      simp only [insertLoop, List.get_cons_succ]
      rw [this]
      congr 2
      omega

/-! ### C4 — bounds of the typing-delay function -/

/-- C4: for every message length `L` and every pair of random draws in
`[0,1)`, `calculateTypingDelay` returns an integer between `1000` ms and
`1000 + L/2.5*1000 + 3000 = 4000 + 400*L` ms (in particular it is
non-negative). -/
theorem typing_delay_bounds (r1 r2 : ℚ) (L : Nat)
    (h1a : 0 ≤ r1) (h1b : r1 < 1) (h2a : 0 ≤ r2) (h2b : r2 < 1) :
    1000 ≤ calculateTypingDelay r1 r2 L ∧
    calculateTypingDelay r1 r2 L ≤ 4000 + 400 * (L : Int) := by
  simp only [calculateTypingDelay]
  have hcps0 : (0 : ℚ) < 3 + (r1 * (1/2) * 2 - 1/2) := by linarith
  have hL0 : (0 : ℚ) ≤ (L : ℚ) := Nat.cast_nonneg L
  have hbase0 : (0 : ℚ) ≤ (L : ℚ) / (3 + (r1 * (1/2) * 2 - 1/2)) * 1000 := by
    positivity
  have hbase : (L : ℚ) / (3 + (r1 * (1/2) * 2 - 1/2)) * 1000 ≤ 400 * L := by
    rw [div_mul_eq_mul_div, div_le_iff₀ hcps0]
    nlinarith
  constructor
  · rw [Int.le_floor]
    push_cast
    nlinarith
  · have hx : (L : ℚ) / (3 + (r1 * (1/2) * 2 - 1/2)) * 1000 + (1000 + r2 * 2000)
        ≤ ((4000 + 400 * (L : Int) : Int) : ℚ) := by
      push_cast
      nlinarith
    calc ⌊(L : ℚ) / (3 + (r1 * (1/2) * 2 - 1/2)) * 1000 + (1000 + r2 * 2000)⌋
        ≤ ⌊((4000 + 400 * (L : Int) : Int) : ℚ)⌋ := Int.floor_le_floor hx
      _ = 4000 + 400 * (L : Int) := Int.floor_intCast _

/-- Witness for C4 at `r1 = r2 = 1/2`, `L = 10`. -/
theorem typing_delay_bounds_witness :
    ((0 : ℚ) ≤ 1/2 ∧ (1/2 : ℚ) < 1) ∧
    1000 ≤ calculateTypingDelay (1/2) (1/2) 10 ∧
    calculateTypingDelay (1/2) (1/2) 10 ≤ 4000 + 400 * ((10 : Nat) : Int) := by
  refine ⟨⟨by norm_num, by norm_num⟩, ?_, ?_⟩
  · exact (typing_delay_bounds (1/2) (1/2) 10 (by norm_num) (by norm_num)
      (by norm_num) (by norm_num)).1
  · exact (typing_delay_bounds (1/2) (1/2) 10 (by norm_num) (by norm_num)
      (by norm_num) (by norm_num)).2

/-! ### C7 — batch deletion removes exactly the unsent rows of that batch -/

/-- C7: `deleteScheduledBatch` keeps a row iff it is not an unsent member of
exactly that batch: rows of any other batch (the equality on `batch_id` is
exact, so ids merely sharing a prefix do not match) and already-sent rows of
the same batch survive verbatim, in order. -/
theorem delete_batch_exact (s : List Entry) (batchId : String) (e : Entry) :
    (e ∈ (deleteScheduledBatch s batchId).1 ↔
      e ∈ s ∧ ¬(e.batch_id = batchId ∧ e.sent = false)) ∧
    ((deleteScheduledBatch s batchId).1).Sublist s := by
  constructor
  · rw [deleteScheduledBatch]
    simp only [List.mem_filter]
    constructor
    · rintro ⟨hs, h⟩
      refine ⟨hs, fun hc => ?_⟩
      simp [hc.1, hc.2] at h
    · rintro ⟨hs, h⟩
      refine ⟨hs, ?_⟩
      by_cases hb : e.batch_id = batchId
      · have hsent : e.sent = true := by
          by_contra hc
          exact h ⟨hb, Bool.eq_false_iff.mpr hc⟩
        simp [hsent]
      · simp [hb]
  · exact List.filter_sublist s

/-- Witness for C7 on a store with prefix-colliding batch ids: deleting
batch "batch1" keeps the unsent row of batch "batch12" and the sent row of
batch "batch1". -/
theorem delete_batch_exact_witness :
    ((⟨2, "222", "m2", 20, false, "batch12"⟩ : Entry) ∈
      (deleteScheduledBatch
        [(⟨1, "111", "m1", 10, false, "batch1"⟩ : Entry),
         ⟨2, "222", "m2", 20, false, "batch12"⟩,
         ⟨3, "333", "m3", 30, true, "batch1"⟩] "batch1").1 ↔
      (⟨2, "222", "m2", 20, false, "batch12"⟩ : Entry) ∈
        [(⟨1, "111", "m1", 10, false, "batch1"⟩ : Entry),
         ⟨2, "222", "m2", 20, false, "batch12"⟩,
         ⟨3, "333", "m3", 30, true, "batch1"⟩] ∧
      ¬((⟨2, "222", "m2", 20, false, "batch12"⟩ : Entry).batch_id = "batch1" ∧
        (⟨2, "222", "m2", 20, false, "batch12"⟩ : Entry).sent = false)) ∧
    ((deleteScheduledBatch
      [(⟨1, "111", "m1", 10, false, "batch1"⟩ : Entry),
       ⟨2, "222", "m2", 20, false, "batch12"⟩,
       ⟨3, "333", "m3", 30, true, "batch1"⟩] "batch1").1).Sublist
      [(⟨1, "111", "m1", 10, false, "batch1"⟩ : Entry),
       ⟨2, "222", "m2", 20, false, "batch12"⟩,
       ⟨3, "333", "m3", 30, true, "batch1"⟩] :=
  delete_batch_exact
    [(⟨1, "111", "m1", 10, false, "batch1"⟩ : Entry),
     ⟨2, "222", "m2", 20, false, "batch12"⟩,
     ⟨3, "333", "m3", 30, true, "batch1"⟩] "batch1"
    ⟨2, "222", "m2", 20, false, "batch12"⟩

/-! ### C3 — per-message schedule times within a batch -/

/-- C3: on the success path `postSchedule` appends one row per message; the
first row is scheduled exactly at `targetTime`, and each later row is
scheduled at the previous row's time plus `calculateTypingDelay` applied to
the length of the previous message (with the random draws of the call made
while processing that previous message). -/
theorem batch_times_recurrence (s : List Entry) (pn : String) (msgs : List String)
    (target now : Int) (bid : String) (nid : Nat) (r1 r2 : Nat → ℚ)
    (hpn : pn ≠ "") (hm : msgs ≠ []) (ht : now < target) :
    postSchedule s pn msgs target now bid nid r1 r2 (fun _ => true)
      = (s ++ insertLoop pn bid target (typingDelays r1 r2) msgs 0 nid 0,
         Resp.ok msgs.length
           ((insertLoop pn bid target (typingDelays r1 r2) msgs 0 nid 0).map Entry.id)) ∧
    (∀ h0 : 0 < (insertLoop pn bid target (typingDelays r1 r2) msgs 0 nid 0).length,
      ((insertLoop pn bid target (typingDelays r1 r2) msgs 0 nid 0).get
        ⟨0, h0⟩).scheduled_time = target) ∧
    (∀ (j : Nat) (hj : j + 1 < msgs.length)
      (hj1 : j + 1 < (insertLoop pn bid target (typingDelays r1 r2) msgs 0 nid 0).length)
      (hj0 : j < (insertLoop pn bid target (typingDelays r1 r2) msgs 0 nid 0).length)
      (hjm : j < msgs.length),
      ((insertLoop pn bid target (typingDelays r1 r2) msgs 0 nid 0).get
        ⟨j + 1, hj1⟩).scheduled_time
        = ((insertLoop pn bid target (typingDelays r1 r2) msgs 0 nid 0).get
            ⟨j, hj0⟩).scheduled_time
          + calculateTypingDelay (r1 j) (r2 j) ((msgs.get ⟨j, hjm⟩).length)) := by
  have h1 : ¬(pn = "" ∨ msgs = []) := by
    rintro (h | h)
    · exact hpn h
    · exact hm h
  have h2 : ¬(target ≤ now) := not_le.mpr ht
  refine ⟨?_, ?_, ?_⟩
  · simp only [postSchedule, if_neg h1, if_neg h2, insertLoopF_all, if_true]
  · intro h0
    match msgs, hm with
    | m :: rest, _ =>
      have := insertLoop_time_zero pn bid target (typingDelays r1 r2) m rest 0 nid 0 h0
      rw [this, add_zero]
  · intro j hj hj1 hj0 hjm
    have := insertLoop_time_succ pn bid target (typingDelays r1 r2)
      msgs 0 nid 0 j hj hj1 hj0 hjm
    rw [this]
    simp [typingDelays]

/-- Witness for C3: the spec's three-message example, scheduled at
`target = 1000` with both random draws fixed at `1/2` for every call. -/
theorem batch_times_recurrence_witness :
    ("5551234" ≠ "" ∧ (["Hey", "How are you?", "Want to hang out?"] : List String) ≠ []
      ∧ (0 : Int) < 1000) ∧
    ((insertLoop "5551234" "B" 1000 (typingDelays (fun _ => 1/2) (fun _ => 1/2))
        ["Hey", "How are you?", "Want to hang out?"] 0 1 0).get
          ⟨0, by decide⟩).scheduled_time = 1000 ∧
    ((insertLoop "5551234" "B" 1000 (typingDelays (fun _ => 1/2) (fun _ => 1/2))
        ["Hey", "How are you?", "Want to hang out?"] 0 1 0).get
          ⟨1, by decide⟩).scheduled_time
      = ((insertLoop "5551234" "B" 1000 (typingDelays (fun _ => 1/2) (fun _ => 1/2))
          ["Hey", "How are you?", "Want to hang out?"] 0 1 0).get
            ⟨0, by decide⟩).scheduled_time
        + calculateTypingDelay (1/2) (1/2) 3 := by
  have h := batch_times_recurrence [] "5551234"
    ["Hey", "How are you?", "Want to hang out?"] 1000 0 "B" 1
    (fun _ => 1/2) (fun _ => 1/2)
    (by decide) (by decide) (by decide)
  exact ⟨⟨by decide, by decide, by decide⟩, h.2.1 (by decide),
    h.2.2 0 (by decide) (by decide) (by decide) (by decide)⟩

/-! ### Dispatcher-tick characterisation -/

/-- The dispatcher loop invokes the transport exactly on its snapshot, in
snapshot order. -/
theorem tickLoop_log (sendOk : Entry → Bool) :
    ∀ (todo s : List Entry), (tickLoop sendOk s todo).2 = todo := by
  intro todo
  induction todo with
  | nil => intro s; rfl
  | cons e todo ih =>
    intro s
    cases he : sendOk e <;> simp [tickLoop, he, ih]

/-- The dispatcher loop's effect on the store: a row is marked sent iff some
snapshot entry with its rowid has a succeeding send; nothing else changes. -/
theorem tickLoop_store (sendOk : Entry → Bool) :
    ∀ (todo s : List Entry),
      (tickLoop sendOk s todo).1
        = s.map fun x =>
            if todo.any fun t => t.id == x.id && sendOk t then setSent x else x := by
  intro todo
  induction todo with
  | nil =>
    intro s
    simp [tickLoop]
  | cons e todo ih =>
    intro s
    cases he : sendOk e with
    | true =>
      simp only [tickLoop, he, if_true, ih, markSent, List.map_map]
      refine List.map_congr_left fun x _ => ?_
      by_cases hid : e.id = x.id
      · simp [Function.comp, hid, setSent, List.any_cons, he]
      · have hid2 : ¬ x.id = e.id := fun h => hid h.symm
        simp [Function.comp, hid, hid2, List.any_cons, he]
    | false =>
      simp only [tickLoop, he, Bool.false_eq_true, if_false, ih]
      refine List.map_congr_left fun x _ => ?_
      simp [List.any_cons, he]

/-- A ready tick's transport invocations are exactly the due rows, in table
order. -/
theorem runTick_log (sendOk : Entry → Bool) (now : Int) (s : List Entry) :
    (runTick true sendOk now s).2 = dueList now s := by
  simp [runTick, tickLoop_log]

/-- A ready tick's effect on the store. -/
theorem runTick_store (sendOk : Entry → Bool) (now : Int) (s : List Entry) :
    (runTick true sendOk now s).1
      = s.map fun x =>
          if (dueList now s).any fun t => t.id == x.id && sendOk t then setSent x
          else x := by
  simp [runTick, tickLoop_store]

/-! ### C1 — order in which a tick hands due entries to the transport -/

/-- C1 counterexample: two due unsent entries from different batches sit in
the table in rowid order with times `200` then `100`; at `now = 250` the
dispatcher (whose due query has no `ORDER BY`) invokes the transport in
table order, which is not ascending `scheduledAt` order. -/
theorem dispatch_order_counterexample :
    ¬ List.Pairwise (fun a b : Entry => a.scheduled_time ≤ b.scheduled_time)
      ((runTick true (fun _ => true) 250
        [⟨1, "111", "a", 200, false, "b1"⟩,
         ⟨2, "222", "b", 100, false, "b2"⟩]).2) := by
  decide

/-- C1 amended: on every ready tick the due entries are handed to the
transport sequentially in the store's row (rowid) order — the due query has
no `ORDER BY` — and this order is ascending in `scheduledAt` only when the
store itself lists the entries in ascending `scheduledAt` order. -/
theorem dispatch_order_amended (sendOk : Entry → Bool) (now : Int) (s : List Entry) :
    (runTick true sendOk now s).2 = dueList now s ∧
    (List.Pairwise (fun a b : Entry => a.scheduled_time ≤ b.scheduled_time) s →
      List.Pairwise (fun a b : Entry => a.scheduled_time ≤ b.scheduled_time)
        ((runTick true sendOk now s).2)) := by
  refine ⟨runTick_log sendOk now s, fun hp => ?_⟩
  rw [runTick_log]
  exact hp.filter _

/-- Witness for C1 (amended) on a store already sorted by `scheduledAt`. -/
theorem dispatch_order_amended_witness :
    List.Pairwise (fun a b : Entry => a.scheduled_time ≤ b.scheduled_time)
      [(⟨1, "111", "a", 100, false, "b1"⟩ : Entry),
       ⟨2, "222", "b", 200, false, "b2"⟩] ∧
    (runTick true (fun _ => true) 250
      [(⟨1, "111", "a", 100, false, "b1"⟩ : Entry),
       ⟨2, "222", "b", 200, false, "b2"⟩]).2
      = dueList 250
        [(⟨1, "111", "a", 100, false, "b1"⟩ : Entry),
         ⟨2, "222", "b", 200, false, "b2"⟩] ∧
    List.Pairwise (fun a b : Entry => a.scheduled_time ≤ b.scheduled_time)
      ((runTick true (fun _ => true) 250
        [(⟨1, "111", "a", 100, false, "b1"⟩ : Entry),
         ⟨2, "222", "b", 200, false, "b2"⟩]).2) :=
  ⟨by decide, (dispatch_order_amended (fun _ => true) 250 _).1,
    (dispatch_order_amended (fun _ => true) 250 _).2 (by decide)⟩

/-- Membership in the dispatcher's due query. -/
theorem mem_dueList (now : Int) (s : List Entry) (e : Entry) :
    e ∈ dueList now s ↔ e ∈ s ∧ e.sent = false ∧ e.scheduled_time ≤ now := by
  simp [dueList, List.mem_filter, and_assoc]

/-- When the rowids of a store are distinct, entries are determined by their
rowid. -/
theorem id_inj {s : List Entry} (hnd : (s.map Entry.id).Nodup)
    {a b : Entry} (ha : a ∈ s) (hb : b ∈ s) (h : a.id = b.id) : a = b :=
  List.inj_on_of_nodup_map hnd ha hb h

/-! ### C8 — a failing send is isolated and the entry stays pending -/

/-- C8: within one ready tick over a store with distinct rowids, a due entry
`e` whose transport send fails is left completely unchanged (hence unsent
and due again at any later instant), while every due entry `f` whose send
succeeds is marked sent; both are handed to the transport, so the failure
does not block the processing of the other due entries of the same tick. -/
theorem tick_failure_isolation (sendOk : Entry → Bool) (now : Int)
    (s : List Entry) (hnd : (s.map Entry.id).Nodup) (e f : Entry)
    (he : e ∈ dueList now s) (hef : sendOk e = false)
    (hf : f ∈ dueList now s) (hft : sendOk f = true) :
    e ∈ (runTick true sendOk now s).1 ∧
    (∀ now', now ≤ now' → e ∈ dueList now' (runTick true sendOk now s).1) ∧
    setSent f ∈ (runTick true sendOk now s).1 ∧
    e ∈ (runTick true sendOk now s).2 ∧ f ∈ (runTick true sendOk now s).2 := by
  have hes := (mem_dueList now s e).mp he
  have hfs := (mem_dueList now s f).mp hf
  have hFe : ((dueList now s).any fun t => t.id == e.id && sendOk t) = false := by
    rw [List.any_eq_false]
    intro t ht
    by_cases hid : t.id = e.id
    · have : t = e :=
        id_inj hnd ((mem_dueList now s t).mp ht).1 hes.1 hid
      simp [this, hef]
    · simp [hid]
  have hFf : ((dueList now s).any fun t => t.id == f.id && sendOk t) = true := by
    rw [List.any_eq_true]
    exact ⟨f, hf, by simp [hft]⟩
  have hmem : e ∈ (runTick true sendOk now s).1 := by
    rw [runTick_store]
    have h1 := List.mem_map_of_mem
      (fun x => if (dueList now s).any fun t => t.id == x.id && sendOk t
        then setSent x else x) hes.1
    simpa [hFe] using h1
  have hmf : setSent f ∈ (runTick true sendOk now s).1 := by
    rw [runTick_store]
    have h1 := List.mem_map_of_mem
      (fun x => if (dueList now s).any fun t => t.id == x.id && sendOk t
        then setSent x else x) hfs.1
    simpa [hFf] using h1
  refine ⟨hmem, fun now' hn => ?_, hmf, ?_, ?_⟩
  · exact (mem_dueList now' _ e).mpr ⟨hmem, hes.2.1, le_trans hes.2.2 hn⟩
  · rw [runTick_log]; exact he
  · rw [runTick_log]; exact hf

/-- Witness for C8: three due entries, the middle one failing; the other
two are still dispatched and marked sent, the failing one stays due. -/
theorem tick_failure_isolation_witness :
    ((⟨2, "222", "m2", 20, false, "b"⟩ : Entry) ∈ dueList 100
      [(⟨1, "111", "m1", 10, false, "b"⟩ : Entry),
       ⟨2, "222", "m2", 20, false, "b"⟩, ⟨3, "333", "m3", 30, false, "b"⟩] ∧
     (⟨3, "333", "m3", 30, false, "b"⟩ : Entry) ∈ dueList 100
      [(⟨1, "111", "m1", 10, false, "b"⟩ : Entry),
       ⟨2, "222", "m2", 20, false, "b"⟩, ⟨3, "333", "m3", 30, false, "b"⟩]) ∧
    (⟨2, "222", "m2", 20, false, "b"⟩ : Entry) ∈ dueList 999
      ((runTick true (fun x => !(x.id == 2)) 100
        [(⟨1, "111", "m1", 10, false, "b"⟩ : Entry),
         ⟨2, "222", "m2", 20, false, "b"⟩,
         ⟨3, "333", "m3", 30, false, "b"⟩]).1) ∧
    setSent ⟨3, "333", "m3", 30, false, "b"⟩ ∈
      ((runTick true (fun x => !(x.id == 2)) 100
        [(⟨1, "111", "m1", 10, false, "b"⟩ : Entry),
         ⟨2, "222", "m2", 20, false, "b"⟩,
         ⟨3, "333", "m3", 30, false, "b"⟩]).1) ∧
    (⟨2, "222", "m2", 20, false, "b"⟩ : Entry) ∈
      ((runTick true (fun x => !(x.id == 2)) 100
        [(⟨1, "111", "m1", 10, false, "b"⟩ : Entry),
         ⟨2, "222", "m2", 20, false, "b"⟩,
         ⟨3, "333", "m3", 30, false, "b"⟩]).2) := by
  have h := tick_failure_isolation (fun x => !(x.id == 2)) 100
    [(⟨1, "111", "m1", 10, false, "b"⟩ : Entry),
     ⟨2, "222", "m2", 20, false, "b"⟩, ⟨3, "333", "m3", 30, false, "b"⟩]
    (by decide) ⟨2, "222", "m2", 20, false, "b"⟩ ⟨3, "333", "m3", 30, false, "b"⟩
    (by decide) (by decide) (by decide) (by decide)
  exact ⟨⟨by decide, by decide⟩, h.2.1 999 (by decide), h.2.2.1, h.2.2.2.1⟩

/-! ### C6 — monotonicity of `sent` and single dispatch -/

/-- An already-sent row is a fixed point of `setSent`. -/
theorem setSent_of_sent (e : Entry) (h : e.sent = true) : setSent e = e := by
  cases e with
  | mk i p m t st b =>
    simp only [setSent]
    simp_all

/-- With distinct rowids, at most one row of a store matches a given id. -/
theorem countP_id_le_one (s : List Entry) (i : Nat)
    (hnd : (s.map Entry.id).Nodup) :
    (s.countP fun e => e.id == i) ≤ 1 := by
  induction s with
  | nil => simp
  | cons e s ih =>
    rw [List.map_cons, List.nodup_cons] at hnd
    rw [List.countP_cons]
    by_cases hid : e.id = i
    · have hz : (s.countP fun e => e.id == i) = 0 := by
        rw [List.countP_eq_zero]
        intro t ht
        simp only [beq_iff_eq]
        intro hti
        exact hnd.1 (hid ▸ hti ▸ List.mem_map_of_mem Entry.id ht)
      simp [hz, hid]
    · simp [hid, ih hnd.2]

/-- Every already-sent row survives every operation verbatim: no operation
ever turns `sent` back to false, reschedules a sent row, or deletes it. -/
theorem sent_entry_preserved (s : List Entry) (op : Op) (e : Entry)
    (hes : e ∈ s) (hsent : e.sent = true) : e ∈ applyOp s op := by
  cases op with
  | schedule pn msgs target now bid nid r1 r2 insOk =>
    simp only [applyOp, postSchedule]
    split
    · exact hes
    · split
      · exact hes
      · exact List.mem_append_left _ hes
  | reschedule id t =>
    simp only [applyOp, putScheduledId, apply_ite Prod.fst, ite_self]
    have hfix : (if e.id == id && !e.sent
        then { e with scheduled_time := t } else e) = e := by
      simp [hsent]
    exact hfix ▸ List.mem_map_of_mem _ hes
  | deleteOne id =>
    simp only [applyOp, deleteScheduledId, apply_ite Prod.fst, ite_self]
    exact List.mem_filter.mpr ⟨hes, by simp [hsent]⟩
  | deleteBatch bid =>
    simp only [applyOp, deleteScheduledBatch]
    exact List.mem_filter.mpr ⟨hes, by simp [hsent]⟩
  | tick ready sendOk now =>
    cases ready with
    | false => simpa [applyOp, runTick] using hes
    | true =>
      simp only [applyOp]
      rw [runTick_store]
      have hfix : (if (dueList now s).any fun t => t.id == e.id && sendOk t
          then setSent e else e) = e := by
        split
        · exact setSent_of_sent e hsent
        · rfl
      exact hfix ▸ List.mem_map_of_mem _ hes

/-- Within one tick, the transport is invoked at most once per rowid. -/
theorem tick_dispatch_count (ready : Bool) (sendOk : Entry → Bool) (now : Int)
    (s : List Entry) (i : Nat) (hnd : (s.map Entry.id).Nodup) :
    ((runTick ready sendOk now s).2.countP fun e => e.id == i) ≤ 1 := by
  cases ready with
  | false => simp [runTick]
  | true =>
    rw [runTick_log]
    calc ((dueList now s).countP fun e => e.id == i)
        ≤ (s.countP fun e => e.id == i) := by
          rw [dueList, List.countP_filter]
          exact List.countP_mono_left fun a _ h => by
            simpa using (Bool.and_eq_true _ _).mp h |>.1
      _ ≤ 1 := countP_id_le_one s i hnd

/-- C6 counterexample: the cron callback is `async` and nothing stops a
second tick from starting while the first is suspended at the `await` of
its send.  With one due entry, the interleaving "tick 1 snapshots, tick 1
starts its send, tick 2 snapshots (the row is still unsent), tick 2 starts
its send, tick 1 marks sent, tick 2 marks sent" hands the same entry to the
transport twice. -/
theorem sent_monotone_counterexample :
    ((runSched (fun _ => true) 10 [true, true, false, false, true, false]
      TickPhase.start TickPhase.start
      { store := [⟨1, "111", "hi", 0, false, "b"⟩], log := [] }).2.2.log.count
        (⟨1, "111", "hi", 0, false, "b"⟩ : Entry)) = 2 := by
  decide

/-- C6 amended: the `sent` flag is monotone — every operation preserves
already-sent rows verbatim, so `sent` only ever goes from false to true —
and a single tick invocation dispatches each rowid at most once; the code
has no guard against two overlapping tick invocations, which can each
dispatch the same entry once (see the counterexample), so single dispatch
holds per tick, not across overlapping ticks. -/
theorem sent_monotone_amended (s : List Entry) :
    (∀ (op : Op) (e : Entry), e ∈ s → e.sent = true → e ∈ applyOp s op) ∧
    (∀ (ready : Bool) (sendOk : Entry → Bool) (now : Int) (i : Nat),
      (s.map Entry.id).Nodup →
      ((runTick ready sendOk now s).2.countP fun e => e.id == i) ≤ 1) :=
  ⟨fun op e he hs => sent_entry_preserved s op e he hs,
   fun ready sendOk now i hnd => tick_dispatch_count ready sendOk now s i hnd⟩

/-- Witness for C6 (amended): a sent row survives a ready tick, and the
tick dispatches rowid 1 at most once. -/
theorem sent_monotone_amended_witness :
    ((⟨1, "111", "hi", 0, true, "b"⟩ : Entry) ∈
      [(⟨1, "111", "hi", 0, true, "b"⟩ : Entry), ⟨2, "222", "yo", 0, false, "b"⟩]
      ∧ (⟨1, "111", "hi", 0, true, "b"⟩ : Entry).sent = true) ∧
    (⟨1, "111", "hi", 0, true, "b"⟩ : Entry) ∈
      applyOp [(⟨1, "111", "hi", 0, true, "b"⟩ : Entry),
        ⟨2, "222", "yo", 0, false, "b"⟩] (Op.tick true (fun _ => true) 10) ∧
    ((runTick true (fun _ => true) 10
      [(⟨1, "111", "hi", 0, true, "b"⟩ : Entry),
       ⟨2, "222", "yo", 0, false, "b"⟩]).2.countP fun e => e.id == 1) ≤ 1 := by
  have h := sent_monotone_amended
    [(⟨1, "111", "hi", 0, true, "b"⟩ : Entry), ⟨2, "222", "yo", 0, false, "b"⟩]
  exact ⟨⟨by decide, by decide⟩,
    h.1 (Op.tick true (fun _ => true) 10) _ (by decide) (by decide),
    h.2 true (fun _ => true) 10 1 (by decide)⟩

/-! ### C2 — what a mid-batch write failure leaves behind -/

/-- If the writes at indices below `k` succeed and the one at `k` fails,
the fallible insert loop persists exactly the first `k` rows of the intended
batch and reports failure. -/
theorem insertLoopF_take (insOk : Nat → Bool) (pn bid : String) (target : Int)
    (d : Nat → String → Int) :
    ∀ (msgs : List String) (k idx nid : Nat) (cum : Int),
      (∀ j, j < k → insOk (idx + j) = true) → insOk (idx + k) = false →
      k < msgs.length →
      insertLoopF insOk pn bid target d msgs idx nid cum
        = ((insertLoop pn bid target d msgs idx nid cum).take k, false) := by
  intro msgs
  induction msgs with
  | nil => intro k idx nid cum _ _ hk; exact absurd hk (by simp)
  | cons m rest ih =>
    intro k idx nid cum hpre hfail hk
    cases k with
    | zero =>
      have h0 : insOk idx = false := by simpa using hfail
      simp [insertLoopF, insertLoop, h0]
    | succ k =>
      have h0 : insOk idx = true := by simpa using hpre 0 (Nat.succ_pos k)
      have hih := ih k (idx + 1) (nid + 1)
        (cum + if rest = [] then 0 else d idx m)
        (fun j hj => by
          have := hpre (j + 1) (Nat.succ_lt_succ hj)
          rwa [show idx + 1 + j = idx + (j + 1) by omega])
        (by rwa [show idx + 1 + k = idx + (k + 1) by omega])
        (by simpa using hk)
      simp [insertLoopF, insertLoop, h0, hih, List.take_succ_cons]

/-- C2 counterexample: scheduling the two-message batch `["a", "b"]` where
the first row write succeeds and the second fails: the handler reports a
server error, but one row of the batch remains observable in the store — the
batch write is not atomic. -/
theorem batch_write_atomic_counterexample :
    (postSchedule [] "p" ["a", "b"] 10 0 "B" 1 (fun _ => 1/2) (fun _ => 1/2)
      (fun i => i == 0)).2 = Resp.serverError ∧
    ((postSchedule [] "p" ["a", "b"] 10 0 "B" 1 (fun _ => 1/2) (fun _ => 1/2)
      (fun i => i == 0)).1.countP fun e => e.batch_id == "B") = 1 := by
  constructor <;> decide

/-- C2 amended: each row of a batch is inserted individually with no
enclosing transaction; when the first failing write is at index `k`, the
handler reports the error to the caller, but the `k` rows written before the
failure remain persisted — a partial batch is observable whenever `0 < k`. -/
theorem batch_write_failure_amended (s : List Entry) (pn : String)
    (msgs : List String) (target now : Int) (bid : String) (nid : Nat)
    (r1 r2 : Nat → ℚ) (insOk : Nat → Bool) (k : Nat)
    (hpn : pn ≠ "") (hm : msgs ≠ []) (ht : now < target)
    (hpre : ∀ j, j < k → insOk j = true) (hfail : insOk k = false)
    (hk : k < msgs.length) :
    postSchedule s pn msgs target now bid nid r1 r2 insOk
      = (s ++ (insertLoop pn bid target (typingDelays r1 r2) msgs 0 nid 0).take k,
         Resp.serverError) := by
  have h1 : ¬(pn = "" ∨ msgs = []) := by
    rintro (h | h)
    · exact hpn h
    · exact hm h
  have h2 : ¬(target ≤ now) := not_le.mpr ht
  have h3 := insertLoopF_take insOk pn bid target (typingDelays r1 r2) msgs k 0 nid 0
    (fun j hj => by simpa using hpre j hj) (by simpa using hfail) hk
  simp only [postSchedule, if_neg h1, if_neg h2, h3, Bool.false_eq_true, if_false]

/-- Witness for C2 (amended): three messages, the third write fails; the
store gains exactly the first two rows and the caller sees the error. -/
theorem batch_write_failure_amended_witness :
    ("p" ≠ "" ∧ (["a", "bb", "ccc"] : List String) ≠ [] ∧ (0 : Int) < 10
      ∧ (2 : Nat) < (["a", "bb", "ccc"] : List String).length) ∧
    postSchedule [] "p" ["a", "bb", "ccc"] 10 0 "B" 1 (fun _ => 1/2)
      (fun _ => 1/2) (fun i => !(i == 2))
      = ((insertLoop "p" "B" 10 (typingDelays (fun _ => 1/2) (fun _ => 1/2))
          ["a", "bb", "ccc"] 0 1 0).take 2, Resp.serverError) := by
  have h := batch_write_failure_amended [] "p" ["a", "bb", "ccc"] 10 0 "B" 1
    (fun _ => 1/2) (fun _ => 1/2) (fun i => !(i == 2)) 2
    (by decide) (by decide) (by decide)
    (fun j hj => by interval_cases j <;> rfl) (by rfl) (by decide)
  exact ⟨⟨by decide, by decide, by decide, by decide⟩, by simpa using h⟩

/-! ### C5 — which requests the schedule validation rejects -/

/-- C5 counterexample: the request `messages = [" "]` is non-empty only
because of a blank entry — after trimming/filtering it is empty — yet the
array-input handler accepts it and persists one row, instead of failing
validation with zero rows written. -/
theorem schedule_validation_counterexample :
    specTrimFilter [" "] = [] ∧
    (postSchedule [] "x" [" "] 10 0 "B" 1 (fun _ => 1/2) (fun _ => 1/2)
      (fun _ => true)).2 = Resp.ok 1 [1] ∧
    (postSchedule [] "x" [" "] 10 0 "B" 1 (fun _ => 1/2) (fun _ => 1/2)
      (fun _ => true)).1 = [⟨1, "x", " ", 10, false, "B"⟩] := by
  exact ⟨by decide, by decide, by decide⟩

/-- C5 amended: the array-input handler rejects — before any write, leaving
the store unchanged — requests with an empty destination, an empty
`messages` array, or a target time not strictly in the future; it does not
trim or filter blank entries (see the counterexample).  The older
string-input handler additionally rejects a message string that is empty
after splitting on "/", trimming and dropping blank parts, likewise before
any write. -/
theorem schedule_validation_amended (s : List Entry) (pn : String)
    (msgs : List String) (message : String) (target now : Int) (bid : String)
    (nid : Nat) (r1 r2 : Nat → ℚ) (insOk : Nat → Bool) :
    (pn = "" ∨ msgs = [] ∨ target ≤ now →
      (postSchedule s pn msgs target now bid nid r1 r2 insOk).1 = s ∧
      ∃ err, (postSchedule s pn msgs target now bid nid r1 r2 insOk).2
        = Resp.badRequest err) ∧
    (pn = "" ∨ message = "" ∨ splitMessages message = [] ∨ target ≤ now →
      (postScheduleLegacy s pn message target now bid nid r1 r2).1 = s ∧
      ∃ err, (postScheduleLegacy s pn message target now bid nid r1 r2).2
        = Resp.badRequest err) := by
  constructor
  · intro h
    by_cases h1 : pn = "" ∨ msgs = []
    · simp [postSchedule, h1]
    · have h2 : target ≤ now := by tauto
      simp [postSchedule, h1, h2]
  · intro h
    by_cases h1 : pn = "" ∨ message = ""
    · simp [postScheduleLegacy, h1]
    · by_cases h2 : target ≤ now
      · simp [postScheduleLegacy, h1, h2]
      · have h3 : splitMessages message = [] := by tauto
        simp [postScheduleLegacy, h1, h2, h3]

/-- Witness for C5 (amended): an empty `messages` array and, for the legacy
handler, an empty message string are rejected with the store unchanged. -/
theorem schedule_validation_amended_witness :
    (("x" : String) = "" ∨ ([] : List String) = [] ∨ (10 : Int) ≤ 0) ∧
    (postSchedule [⟨7, "q", "m", 5, false, "C"⟩] "x" [] 10 0 "B" 1
      (fun _ => 1/2) (fun _ => 1/2) (fun _ => true)).1
      = [⟨7, "q", "m", 5, false, "C"⟩] ∧
    (∃ err, (postSchedule [⟨7, "q", "m", 5, false, "C"⟩] "x" [] 10 0 "B" 1
      (fun _ => 1/2) (fun _ => 1/2) (fun _ => true)).2 = Resp.badRequest err) ∧
    (postScheduleLegacy [⟨7, "q", "m", 5, false, "C"⟩] "x" "" 10 0 "B" 1
      (fun _ => 1/2) (fun _ => 1/2)).1 = [⟨7, "q", "m", 5, false, "C"⟩] ∧
    (∃ err, (postScheduleLegacy [⟨7, "q", "m", 5, false, "C"⟩] "x" "" 10 0 "B" 1
      (fun _ => 1/2) (fun _ => 1/2)).2 = Resp.badRequest err) := by
  have h := schedule_validation_amended [⟨7, "q", "m", 5, false, "C"⟩] "x" []
    "" 10 0 "B" 1 (fun _ => 1/2) (fun _ => 1/2) (fun _ => true)
  have h1 := h.1 (Or.inr (Or.inl rfl))
  have h2 := h.2 (Or.inr (Or.inl rfl))
  exact ⟨Or.inr (Or.inl rfl), h1.1, h1.2, h2.1, h2.2⟩

/-! ### C9 / C10 — rescheduling -/

/-- Rescheduling when no unsent row carries the id: zero rows change, the
store is untouched and the handler answers not-found. -/
theorem putScheduledId_notFound (s : List Entry) (id : Nat) (t : Int)
    (h : ∀ e, e ∈ s → e.id = id → e.sent = true) :
    putScheduledId s id t = (s, Resp.notFound) := by
  have hch : (s.countP fun x => x.id == id && !x.sent) = 0 := by
    rw [List.countP_eq_zero]
    intro x hx
    by_cases hxi : x.id = id
    · simp [hxi, h x hx hxi]
    · simp [hxi]
  have hmap : (s.map fun x =>
      if x.id == id && !x.sent then { x with scheduled_time := t } else x) = s := by
    have := List.map_congr_left (l := s)
      (f := fun x => if x.id == id && !x.sent then { x with scheduled_time := t } else x)
      (g := fun x => x)
      (fun x hx => by
        by_cases hxi : x.id = id
        · simp [hxi, h x hx hxi]
        · simp [hxi])
    simpa using this
  have hz : ¬ 0 < (s.countP fun x => x.id == id && !x.sent) := by
    rw [hch]
    exact lt_irrefl 0
  simp only [putScheduledId]
  rw [if_neg hz, hmap]

/-- Rescheduling a pending row: the handler answers success and the row
reappears with the new time. -/
theorem putScheduledId_pending (s : List Entry) (id : Nat) (t : Int) (e : Entry)
    (he : e ∈ s) (hid : e.id = id) (hsent : e.sent = false) :
    (putScheduledId s id t).2 = Resp.success ∧
    { e with scheduled_time := t } ∈ (putScheduledId s id t).1 := by
  have hch : 0 < s.countP fun x => x.id == id && !x.sent := by
    rw [List.countP_pos_iff]
    exact ⟨e, he, by simp [hid, hsent]⟩
  have hmain : putScheduledId s id t
      = (s.map fun x =>
          if x.id == id && !x.sent then { x with scheduled_time := t } else x,
         Resp.success) := by
    simp [putScheduledId, hch]
  rw [hmain]
  refine ⟨rfl, ?_⟩
  have hf : (fun x => if x.id == id && !x.sent
      then { x with scheduled_time := t } else x) e
      = { e with scheduled_time := t } := by
    simp [hid, hsent]
  exact hf ▸ List.mem_map_of_mem _ he

/-- C9: rescheduling an id carried by no unsent row (nonexistent or already
sent) is a no-op answered not-found, leaving the store unchanged; on a
pending id it answers success, stores the new time, and the updated row
appears in the next `listPending` result. -/
theorem reschedule_sent_guard (s : List Entry) (id : Nat) (t : Int) :
    ((∀ e, e ∈ s → e.id = id → e.sent = true) →
      putScheduledId s id t = (s, Resp.notFound)) ∧
    (∀ e, e ∈ s → e.id = id → e.sent = false →
      (putScheduledId s id t).2 = Resp.success ∧
      { e with scheduled_time := t } ∈ (putScheduledId s id t).1 ∧
      { e with scheduled_time := t } ∈ listPending (putScheduledId s id t).1) := by
  refine ⟨putScheduledId_notFound s id t, fun e he hid hsent => ?_⟩
  have h := putScheduledId_pending s id t e he hid hsent
  refine ⟨h.1, h.2, ?_⟩
  rw [listPending, List.mem_mergeSort]
  exact List.mem_filter.mpr ⟨h.2, by simp [hsent]⟩

/-- Witness for C9: a two-row store whose first row is already sent;
rescheduling id 1 answers not-found and changes nothing, rescheduling the
pending id 2 stores the new time and shows up in `listPending`. -/
theorem reschedule_sent_guard_witness :
    ((⟨2, "p", "m", 50, false, "b"⟩ : Entry) ∈
        [(⟨1, "p", "m", 100, true, "b"⟩ : Entry), ⟨2, "p", "m", 50, false, "b"⟩]
      ∧ (⟨2, "p", "m", 50, false, "b"⟩ : Entry).sent = false) ∧
    putScheduledId
        [(⟨1, "p", "m", 100, true, "b"⟩ : Entry), ⟨2, "p", "m", 50, false, "b"⟩] 1 77
      = ([(⟨1, "p", "m", 100, true, "b"⟩ : Entry), ⟨2, "p", "m", 50, false, "b"⟩],
         Resp.notFound) ∧
    (putScheduledId
        [(⟨1, "p", "m", 100, true, "b"⟩ : Entry), ⟨2, "p", "m", 50, false, "b"⟩] 2 77).2
      = Resp.success ∧
    (⟨2, "p", "m", 77, false, "b"⟩ : Entry) ∈
      (putScheduledId
        [(⟨1, "p", "m", 100, true, "b"⟩ : Entry), ⟨2, "p", "m", 50, false, "b"⟩] 2 77).1 ∧
    (⟨2, "p", "m", 77, false, "b"⟩ : Entry) ∈
      listPending (putScheduledId
        [(⟨1, "p", "m", 100, true, "b"⟩ : Entry), ⟨2, "p", "m", 50, false, "b"⟩] 2 77).1 := by
  have h1 := (reschedule_sent_guard
    [(⟨1, "p", "m", 100, true, "b"⟩ : Entry), ⟨2, "p", "m", 50, false, "b"⟩] 1 77).1
    (by decide)
  have h2 := (reschedule_sent_guard
    [(⟨1, "p", "m", 100, true, "b"⟩ : Entry), ⟨2, "p", "m", 50, false, "b"⟩] 2 77).2
    ⟨2, "p", "m", 50, false, "b"⟩ (by decide) rfl rfl
  exact ⟨⟨by decide, rfl⟩, h1, h2.1, h2.2.1, h2.2.2⟩

/-- C10: rescheduling performs no validation of the new time — any value,
a past instant included, is accepted for a pending row and stored verbatim,
making the row due on the next tick once `newTime ≤ now`; by contrast the
schedule handler rejects the same non-future time outright. -/
theorem reschedule_no_validation (s : List Entry) (id : Nat) (t now : Int)
    (e : Entry) (he : e ∈ s) (hid : e.id = id) (hsent : e.sent = false) :
    (putScheduledId s id t).2 = Resp.success ∧
    { e with scheduled_time := t } ∈ (putScheduledId s id t).1 ∧
    (t ≤ now →
      { e with scheduled_time := t } ∈ dueList now (putScheduledId s id t).1) ∧
    (∀ (pn : String) (msgs : List String) (bid : String) (nid : Nat)
      (r1 r2 : Nat → ℚ) (insOk : Nat → Bool), pn ≠ "" → msgs ≠ [] → t ≤ now →
      postSchedule s pn msgs t now bid nid r1 r2 insOk
        = (s, Resp.badRequest "Scheduled time must be in the future")) := by
  have h := putScheduledId_pending s id t e he hid hsent
  refine ⟨h.1, h.2, fun htn => ?_, fun pn msgs bid nid r1 r2 insOk hpn hm htn => ?_⟩
  · exact (mem_dueList now _ _).mpr ⟨h.2, by simp [hsent], htn⟩
  · simp [postSchedule, hpn, hm, htn]

/-- Witness for C10: a pending row rescheduled to the past time `-50` is
accepted, stored verbatim and due at `now = 0`, while scheduling a new batch
for `-50` is rejected. -/
theorem reschedule_no_validation_witness :
    ((⟨1, "p", "m", 100, false, "b"⟩ : Entry) ∈
        [(⟨1, "p", "m", 100, false, "b"⟩ : Entry)]
      ∧ (⟨1, "p", "m", 100, false, "b"⟩ : Entry).sent = false
      ∧ (-50 : Int) ≤ 0) ∧
    (putScheduledId [(⟨1, "p", "m", 100, false, "b"⟩ : Entry)] 1 (-50)).2
      = Resp.success ∧
    (⟨1, "p", "m", -50, false, "b"⟩ : Entry) ∈
      (putScheduledId [(⟨1, "p", "m", 100, false, "b"⟩ : Entry)] 1 (-50)).1 ∧
    (⟨1, "p", "m", -50, false, "b"⟩ : Entry) ∈
      dueList 0 (putScheduledId [(⟨1, "p", "m", 100, false, "b"⟩ : Entry)] 1 (-50)).1 ∧
    postSchedule [(⟨1, "p", "m", 100, false, "b"⟩ : Entry)] "x" ["hello"] (-50) 0
        "B" 2 (fun _ => 1/2) (fun _ => 1/2) (fun _ => true)
      = ([(⟨1, "p", "m", 100, false, "b"⟩ : Entry)],
         Resp.badRequest "Scheduled time must be in the future") := by
  have h := reschedule_no_validation [(⟨1, "p", "m", 100, false, "b"⟩ : Entry)]
    1 (-50) 0 ⟨1, "p", "m", 100, false, "b"⟩ (by decide) rfl rfl
  exact ⟨⟨by decide, rfl, by decide⟩, h.1, h.2.1, h.2.2.1 (by decide),
    h.2.2.2 "x" ["hello"] "B" 2 (fun _ => 1/2) (fun _ => 1/2) (fun _ => true)
      (by decide) (by decide) (by decide)⟩

end WhatSchedule
